import Mathlib

/-
Verification of the symbol-reference analyzer (src/staticCodeChecker.ts).

The TypeScript source is shallowly embedded as follows.  The parsing
front end (ts-morph) is the external collaborator of the spec: per parsed
file it exposes the identifier occurrences together with the structural
facts the analyzer consults (text, parent kind, grandparent kind, binding
resolution results, enclosing-declaration names, enclosing import module
specifier, position and line/column).  An occurrence is therefore a record
of those accessor results; a source file is a path plus its occurrence
list plus its top-level declaration lists; the project is a list of source
files plus the working directory used for relative paths.  Node identity
is modelled as equality of file path and node position (getPos), which is
how distinct AST nodes are distinguished.  The path library functions
(dirname, resolve, join, relative) are modelled on slash-separated
absolute path strings.
-/

namespace SymbolRef

/-- Syntax kinds the analyzer inspects (a subset of ts SyntaxKind). -/
inductive SKind where
  | classDecl
  | interfaceDecl
  | functionDecl
  | methodDecl
  | propertyDecl
  | variableDecl
  | methodSignature
  | newExpr
  | propAccessExpr
  | importSpec
  | other
deriving DecidableEq, Repr

/-- Result of def.getDeclarationNode() for one entry of node.getDefinitions():
the declaring node with its file, its getPos offset and its kind. -/
structure DeclNode where
  filePath : String
  pos : Nat
  kind : SKind
deriving DecidableEq, Repr

/-- One identifier occurrence as seen through the front-end accessors used by
analyzeSymbol.  ancFunction, ancClass, ancInterface, ancMethod are the names
returned by getFirstAncestorByKind(...).getName(); importModule is the module
specifier of the first ancestor ImportDeclaration when one exists. -/
structure IdentOcc where
  text : String
  pos : Nat
  startLine : Nat
  startColumn : Nat
  parentKind : Option SKind
  grandKind : Option SKind
  defs : List (Option DeclNode)
  ancFunction : Option String
  ancClass : Option String
  ancInterface : Option String
  ancMethod : Option String
  importModule : Option String
deriving DecidableEq, Repr

/-- A class declaration as consulted by checkFile: getName() (possibly
undefined), getMethods() names and getProperties() names. -/
structure ClassInfo where
  name : Option String
  methods : List String
  properties : List String
deriving DecidableEq, Repr

/-- A parsed source file: its absolute path, its Identifier descendants in
document order, and the top-level declaration lists used by checkFile. -/
structure SourceFile where
  filePath : String
  idents : List IdentOcc
  functions : List (Option String)
  classes : List ClassInfo
  interfaces : List String
  variableDecls : List String
deriving DecidableEq, Repr

/-- The StaticCodeChecker state: the project files in enumeration order and
the process working directory used by path.relative. -/
structure Checker where
  cwd : String
  files : List SourceFile
deriving DecidableEq, Repr

/-- Suffix test on strings, computed on character lists so that concrete
instances reduce; models the JS endsWith used on file paths. -/
def strEndsWith (s p : String) : Bool :=
  s.data.reverse.take p.data.length == p.data.reverse

/-- Head test on strings, computed on character lists; models the JS
startsWith used on module specifiers. -/
def strStartsWith (s p : String) : Bool :=
  s.data.take p.data.length == p.data

/-- Split a character list at a separator character, accumulating the
current piece in reverse. -/
def splitCharAux (c : Char) : List Char → List Char → List String
  | [], acc => [String.mk acc.reverse]
  | x :: xs, acc =>
    if x = c then String.mk acc.reverse :: splitCharAux c xs []
    else splitCharAux c xs (x :: acc)

/-- Split a string on the slash separator, keeping empty pieces, as the
string split of the path model. -/
def splitSlash (s : String) : List String :=
  splitCharAux '/' s.data []

/-- Path model: split an absolute slash-separated path into segments. -/
def splitPath (p : String) : List String :=
  (splitSlash p).filter (fun s => s ≠ "")

/-- Path model: rebuild an absolute path from segments. -/
def joinSegs (cs : List String) : String :=
  "/" ++ String.intercalate "/" cs

/-- Model of path.dirname on absolute paths. -/
def dirname (p : String) : String :=
  joinSegs (splitPath p).dropLast

/-- Process relative-path segments against a base segment list, as
path.resolve does for a relative specifier. -/
def resolveSegs (base : List String) (segs : List String) : List String :=
  segs.foldl
    (fun acc s =>
      if s = "." ∨ s = "" then acc
      else if s = ".." then acc.dropLast
      else acc ++ [s])
    base

/-- Model of path.resolve(dir, rel) for a relative specifier rel. -/
def pathResolve (dir : String) (rel : String) : String :=
  joinSegs (resolveSegs (splitPath dir) (splitSlash rel))

/-- Model of path.join(p, s) for a single appended segment. -/
def pathJoin (p : String) (s : String) : String :=
  p ++ "/" ++ s

/-- Drop the longest common prefix of two segment lists. -/
def dropCommon : List String → List String → List String × List String
  | a :: as, b :: bs => if a = b then dropCommon as bs else (a :: as, b :: bs)
  | as, bs => (as, bs)

/-- Model of path.relative(fromP, toP) on absolute paths. -/
def pathRelative (fromP : String) (toP : String) : String :=
  let pair := dropCommon (splitPath fromP) (splitPath toP)
  String.intercalate "/" (pair.1.map (fun _ => "..") ++ pair.2)

/-- The parent kinds accepted by the definition search (source lines 89-95):
class, interface, function, method and property declarations. -/
def acceptedDefParent (k : Option SKind) : Bool :=
  k == some SKind.classDecl || k == some SKind.interfaceDecl ||
  k == some SKind.functionDecl || k == some SKind.methodDecl ||
  k == some SKind.propertyDecl

/-- Definition search (source lines 79-106): walk files in order, skip
files whose path ends with .d.ts, and inside each file take the first
occurrence with matching text whose parent kind is accepted. -/
def findDefinition : List SourceFile → String → Option (String × IdentOcc)
  | [], _ => none
  | sf :: rest, name =>
    if strEndsWith sf.filePath ".d.ts" then findDefinition rest name
    else
      match ((sf.idents.filter (fun o => o.text == name)).find?
          (fun o => acceptedDefParent o.parentKind)) with
      | some occ => some (sf.filePath, occ)
      | none => findDefinition rest name

/-- The result type union of ReferenceResult.type in the source:
function, interface, class or variable (no method and no property). -/
inductive RType where
  | func
  | intf
  | cls
  | tvar
deriving DecidableEq, Repr

/-- String rendering of RType, matching the source string literals. -/
def RType.toStr : RType → String
  | RType.func => "function"
  | RType.intf => "interface"
  | RType.cls => "class"
  | RType.tvar => "variable"

/-- Symbol type computation, transliterating both assignment chains of the
source: the chain at lines 97-102 run when the definition is found (with
initial value function) followed by the chain at lines 116-122 that
re-derives the type from the same parent. -/
def symbolTypeAt (k : Option SKind) : RType :=
  let t1 :=
    if k == some SKind.classDecl then RType.cls
    else if k == some SKind.interfaceDecl then RType.intf
    else if k == some SKind.functionDecl then RType.func
    else if k == some SKind.variableDecl then RType.tvar
    else RType.func
  if k == some SKind.functionDecl then RType.func
  else if k == some SKind.interfaceDecl then RType.intf
  else if k == some SKind.classDecl then RType.cls
  else if k == some SKind.variableDecl then RType.tvar
  else t1

/-- Binding acceptance (source lines 141-169): scan getDefinitions; accept
when a resolved declaration node sits at the definition file and position,
or via the structural fallbacks (new-expression parent with a class
declaration, property-access parent with a method declaration). -/
def isRefToDef (defFile : String) (defOcc : IdentOcc) (occ : IdentOcc) : Bool :=
  occ.defs.any (fun d =>
    match d with
    | none => false
    | some dn =>
      (dn.filePath == defFile && dn.pos == defOcc.pos) ||
      (occ.parentKind == some SKind.newExpr && dn.kind == SKind.classDecl) ||
      (occ.parentKind == some SKind.propAccessExpr && dn.kind == SKind.methodDecl))

/-- The parent kinds of the self-definition skip list (source lines 185-190):
the five accepted declaration kinds plus method signature. -/
def isDeclHeaderKind (k : Option SKind) : Bool :=
  acceptedDefParent k || k == some SKind.methodSignature

/-- Self-definition skip (source lines 181-196): drop the occurrence when it
is the definition node itself and its parent is a declaration header, or
when its parent is a property access directly inside a method declaration. -/
def isSelfSkip (defFile : String) (defOcc : IdentOcc) (curFile : String)
    (occ : IdentOcc) : Bool :=
  match occ.parentKind with
  | none => false
  | some _ =>
    ((curFile == defFile && occ.pos == defOcc.pos) &&
      isDeclHeaderKind occ.parentKind) ||
    (occ.parentKind == some SKind.propAccessExpr &&
      occ.grandKind == some SKind.methodDecl)

/-- Candidate paths tried for a relative import specifier (source lines
208-213): the resolved path with extensions .ts and .tsx and its index
files. -/
def importCandidatePaths (curFile : String) (m : String) : List String :=
  let importerDir := dirname curFile
  let resolvedPath := pathResolve importerDir m
  [resolvedPath ++ ".ts", resolvedPath ++ ".tsx",
   pathJoin resolvedPath "index.ts", pathJoin resolvedPath "index.tsx"]

/-- Import filtering (source lines 199-224): for an import-specifier parent
inside an import declaration, keep the occurrence only when the module
specifier is relative and one candidate path equals the definition file;
non-relative specifiers are dropped. -/
def importOk (defFile : String) (curFile : String) (occ : IdentOcc) : Bool :=
  if occ.parentKind == some SKind.importSpec then
    match occ.importModule with
    | some m =>
      if strStartsWith m "." then (importCandidatePaths curFile m).contains defFile
      else false
    | none => true
  else true

/-- Full per-occurrence acceptance of the reference loop body (source lines
138-224), in source order: binding acceptance, the .d.ts exclusion, the
self-definition skip and the import filter. -/
def acceptOcc (defFile : String) (defOcc : IdentOcc) (curFile : String)
    (occ : IdentOcc) : Bool :=
  isRefToDef defFile defOcc occ &&
  !(strEndsWith curFile ".d.ts") &&
  !(isSelfSkip defFile defOcc curFile occ) &&
  importOk defFile curFile occ

/-- Context labelling (source lines 226-245) from the enclosing-declaration
names of an occurrence. -/
def contextOf (occ : IdentOcc) : String :=
  match occ.ancClass with
  | some c =>
    match occ.ancMethod with
    | some m => "class " ++ c ++ "." ++ m
    | none => "class " ++ c
  | none =>
    match occ.ancInterface with
    | some i => "interface " ++ i
    | none =>
      match occ.ancFunction with
      | some f => "function " ++ f
      | none =>
        match occ.ancMethod with
        | some m => "method " ++ m
        | none => "global scope"

/-- One entry of the references array and of the definition field: relative
file path, 1-based line and column, context label. -/
structure RefSite where
  filePath : String
  line : Nat
  column : Nat
  context : String
deriving DecidableEq, Repr

/-- Build the output entry for an accepted occurrence (source lines 226-262). -/
def mkRef (cwd : String) (curFile : String) (occ : IdentOcc) : RefSite :=
  { filePath := pathRelative cwd curFile
    line := occ.startLine
    column := occ.startColumn
    context := contextOf occ }

/-- The dedup key of a reference entry (source line 252). -/
def refKey (r : RefSite) : String :=
  r.filePath ++ ":" ++ toString r.line ++ ":" ++ toString r.column ++ ":" ++ r.context

/-- All reference entries produced by the double loop of source lines
127-265 before dedup, in loop order: files in project order, minus the
definition file unless internal references are included; inside each file
the occurrences with matching text that pass acceptOcc. -/
def refCandidates (c : Checker) (name : String) (includeInternal : Bool)
    (defFile : String) (defOcc : IdentOcc) : List RefSite :=
  (c.files.filter (fun sf => !(sf.filePath == defFile && !includeInternal))).flatMap
    (fun sf =>
      ((sf.idents.filter (fun o => o.text == name)).filter
          (fun o => acceptOcc defFile defOcc sf.filePath o)).map
        (mkRef c.cwd sf.filePath))

/-- First-occurrence dedup by key with the seen set threaded through, as the
refsSet of source lines 251-263 does. -/
def dedupByKey : List RefSite → List String → List RefSite
  | [], _ => []
  | r :: rs, seen =>
    if seen.contains (refKey r) then dedupByKey rs seen
    else r :: dedupByKey rs (refKey r :: seen)

/-- The ReferenceResult shape of the source. -/
structure AnalysisResult where
  symbol : String
  type : RType
  definition : RefSite
  references : List RefSite
  isReferenced : Bool
deriving DecidableEq, Repr

/-- Transliteration of StaticCodeChecker.analyzeSymbol (source lines 70-284):
find the definition or throw, classify the symbol type, collect and dedup
references, and assemble the result with the constant definition context. -/
def analyzeSymbol (c : Checker) (symbolName : String)
    (includeInternalReferences : Bool) : Except String AnalysisResult :=
  match findDefinition c.files symbolName with
  | none =>
    Except.error ("Symbol " ++ symbolName ++ " was not found in the codebase.")
  | some (defFile, defOcc) =>
    let references :=
      dedupByKey (refCandidates c symbolName includeInternalReferences defFile defOcc) []
    Except.ok
      { symbol := symbolName
        type := symbolTypeAt defOcc.parentKind
        definition :=
          { filePath := pathRelative c.cwd defFile
            line := defOcc.startLine
            column := defOcc.startColumn
            context := "global scope" }
        references := references
        isReferenced := references.length > 0 }

/-- One entry of the unreferencedSymbols output of checkFile. -/
structure DeadEntry where
  type : String
  name : String
  context : String
deriving DecidableEq, Repr

/-- Origin category of a top-level declaration in the declarations array of
checkFile, used for the isKind overrides at source lines 312-316. -/
inductive TopKind where
  | funcD
  | classD
  | interfaceD
  | varD
deriving DecidableEq, Repr

/-- The declarations array of checkFile (source lines 297-302): functions,
classes, interfaces then variable declarations, each with its getName
result (possibly undefined for functions and classes). -/
def topDecls (sf : SourceFile) : List (Option String × TopKind) :=
  sf.functions.map (fun n => (n, TopKind.funcD)) ++
  sf.classes.map (fun cd => (cd.name, TopKind.classD)) ++
  sf.interfaces.map (fun n => (some n, TopKind.interfaceD)) ++
  sf.variableDecls.map (fun n => (some n, TopKind.varD))

/-- Top-level declaration loop of checkFile (source lines 305-325): a name
not yet in the checked set is recorded, analyzed with default options, and
pushed as a dead entry when unreferenced, with the interface and class
overrides of the reported type. -/
def scanTops (c : Checker) :
    List (Option String × TopKind) → List String → List DeadEntry →
    Except String (List String × List DeadEntry)
  | [], checked, out => Except.ok (checked, out)
  | d :: ds, checked, out =>
    match d.1 with
    | none => scanTops c ds checked out
    | some name =>
      if name ≠ "" ∧ ¬ checked.contains name then
        match analyzeSymbol c name false with
        | Except.error e => Except.error e
        | Except.ok result =>
          if result.isReferenced then scanTops c ds (name :: checked) out
          else
            let t :=
              if d.2 == TopKind.interfaceD then "interface"
              else if d.2 == TopKind.classD then "class"
              else result.type.toStr
            scanTops c ds (name :: checked)
              (out ++ [{ type := t, name := name, context := "global scope" }])
      else scanTops c ds checked out

/-- Member loop of checkFile (source lines 332-361) for the method and
property lists of one class, with the given literal type string and class
context label. -/
def scanMembers (c : Checker) (typeStr : String) (ctx : String) :
    List String → List String → List DeadEntry →
    Except String (List String × List DeadEntry)
  | [], checked, out => Except.ok (checked, out)
  | name :: ns, checked, out =>
    if name ≠ "" ∧ ¬ checked.contains name then
      match analyzeSymbol c name false with
      | Except.error e => Except.error e
      | Except.ok result =>
        if result.isReferenced then scanMembers c typeStr ctx ns (name :: checked) out
        else
          scanMembers c typeStr ctx ns (name :: checked)
            (out ++ [{ type := typeStr, name := name, context := ctx }])
    else scanMembers c typeStr ctx ns checked out

/-- Rendering of a possibly undefined class name inside a template literal. -/
def classNameStr : Option String → String
  | some n => n
  | none => "undefined"

/-- Class loop of checkFile (source lines 328-362): for each class, scan its
methods then its properties under the class context label. -/
def scanClasses (c : Checker) :
    List ClassInfo → List String → List DeadEntry →
    Except String (List String × List DeadEntry)
  | [], checked, out => Except.ok (checked, out)
  | cd :: cds, checked, out =>
    match scanMembers c "method" ("class " ++ classNameStr cd.name) cd.methods checked out with
    | Except.error e => Except.error e
    | Except.ok st1 =>
      match scanMembers c "property" ("class " ++ classNameStr cd.name) cd.properties st1.1 st1.2 with
      | Except.error e => Except.error e
      | Except.ok st2 => scanClasses c cds st2.1 st2.2

/-- Transliteration of StaticCodeChecker.checkFile (source lines 291-365):
look up the file or throw, scan the top-level declarations, then the class
members, and return the accumulated unreferenced symbols.  Errors thrown
by analyzeSymbol propagate. -/
def checkFile (c : Checker) (filePath : String) : Except String (List DeadEntry) :=
  match c.files.find? (fun sf => sf.filePath == filePath) with
  | none => Except.error ("File not found: " ++ filePath)
  | some sf =>
    match scanTops c (topDecls sf) [] [] with
    | Except.error e => Except.error e
    | Except.ok st1 =>
      match scanClasses c sf.classes st1.1 st1.2 with
      | Except.error e => Except.error e
      | Except.ok st2 => Except.ok st2.2

/-
Concrete example workspaces used by counterexamples and witnesses.
-/

/-- Identifier of class C at the head of its class declaration in a.ts. -/
def identC : IdentOcc :=
  { text := "C", pos := 6, startLine := 1, startColumn := 7
    parentKind := some SKind.classDecl, grandKind := none
    defs := [], ancFunction := none, ancClass := some "C"
    ancInterface := none, ancMethod := none, importModule := none }

/-- Identifier of method m at the head of its method declaration in class C. -/
def identM : IdentOcc :=
  { text := "m", pos := 12, startLine := 1, startColumn := 13
    parentKind := some SKind.methodDecl, grandKind := some SKind.classDecl
    defs := [some { filePath := "/proj/a.ts", pos := 12, kind := SKind.methodDecl }]
    ancFunction := none, ancClass := some "C"
    ancInterface := none, ancMethod := some "m", importModule := none }

/-- File a.ts declaring class C with method m. -/
def fileA : SourceFile :=
  { filePath := "/proj/a.ts", idents := [identC, identM]
    functions := [], classes := [{ name := some "C", methods := ["m"], properties := [] }]
    interfaces := [], variableDecls := [] }

/-- Workspace with the single file a.ts. -/
def exMethod : Checker := { cwd := "/proj", files := [fileA] }

/-- Identifier of interface I at the head of its declaration in b.ts. -/
def identI : IdentOcc :=
  { text := "I", pos := 0, startLine := 1, startColumn := 11
    parentKind := some SKind.interfaceDecl, grandKind := none
    defs := [], ancFunction := none, ancClass := none
    ancInterface := some "I", ancMethod := none, importModule := none }

/-- Identifier of a same-named method signature m inside interface I in
b.ts, whose binding resolution points at the method declaration of class C
in a.ts. -/
def identMSig : IdentOcc :=
  { text := "m", pos := 40, startLine := 2, startColumn := 5
    parentKind := some SKind.methodSignature, grandKind := some SKind.interfaceDecl
    defs := [some { filePath := "/proj/a.ts", pos := 12, kind := SKind.methodDecl }]
    ancFunction := none, ancClass := none
    ancInterface := some "I", ancMethod := none, importModule := none }

/-- File b.ts declaring interface I with a signature for m. -/
def fileB : SourceFile :=
  { filePath := "/proj/b.ts", idents := [identI, identMSig]
    functions := [], classes := [], interfaces := ["I"], variableDecls := [] }

/-- Workspace with a.ts and b.ts. -/
def exSig : Checker := { cwd := "/proj", files := [fileA, fileB] }

/-- Identifier of the top-level variable unusedVar in v.ts; its parent is a
variable declaration, which the definition search never accepts. -/
def identV : IdentOcc :=
  { text := "unusedVar", pos := 6, startLine := 1, startColumn := 7
    parentKind := some SKind.variableDecl, grandKind := none
    defs := [some { filePath := "/proj/v.ts", pos := 6, kind := SKind.variableDecl }]
    ancFunction := none, ancClass := none
    ancInterface := none, ancMethod := none, importModule := none }

/-- File v.ts containing only the unreferenced variable unusedVar. -/
def fileV : SourceFile :=
  { filePath := "/proj/v.ts", idents := [identV]
    functions := [], classes := [], interfaces := [], variableDecls := ["unusedVar"] }

/-- Workspace with the single variable-only file v.ts. -/
def exVar : Checker := { cwd := "/proj", files := [fileV] }

/-- Identifier of class S at the head of its declaration in s.ts. -/
def identS : IdentOcc :=
  { text := "S", pos := 6, startLine := 1, startColumn := 7
    parentKind := some SKind.classDecl, grandKind := none
    defs := [], ancFunction := none, ancClass := some "S"
    ancInterface := none, ancMethod := none, importModule := none }

/-- A same-file use of S under a new-expression, resolving to the class
declaration of S. -/
def identSUse : IdentOcc :=
  { text := "S", pos := 30, startLine := 3, startColumn := 11
    parentKind := some SKind.newExpr, grandKind := some SKind.other
    defs := [some { filePath := "/proj/s.ts", pos := 6, kind := SKind.classDecl }]
    ancFunction := none, ancClass := none
    ancInterface := none, ancMethod := none, importModule := none }

/-- File s.ts declaring class S and using it only internally. -/
def fileS : SourceFile :=
  { filePath := "/proj/s.ts", idents := [identS, identSUse]
    functions := [], classes := [{ name := some "S", methods := [], properties := [] }]
    interfaces := [], variableDecls := [] }

/-- Workspace with the single file s.ts. -/
def exInternal : Checker := { cwd := "/proj", files := [fileS] }

/-- An occurrence inside an import specifier whose module specifier is an
external package name. -/
def identExternalImport : IdentOcc :=
  { text := "C", pos := 3, startLine := 1, startColumn := 10
    parentKind := some SKind.importSpec, grandKind := some SKind.other
    defs := [some { filePath := "/proj/a.ts", pos := 6, kind := SKind.classDecl }]
    ancFunction := none, ancClass := none
    ancInterface := none, ancMethod := none, importModule := some "lodash" }

/-- The result of analyzing m on the single-file workspace. -/
def exMethodResult : AnalysisResult :=
  { symbol := "m", type := RType.func
    definition := { filePath := "a.ts", line := 1, column := 13, context := "global scope" }
    references := [], isReferenced := false }

/-- The result of analyzing m on the two-file workspace with the interface
signature. -/
def exSigResult : AnalysisResult :=
  { symbol := "m", type := RType.func
    definition := { filePath := "a.ts", line := 1, column := 13, context := "global scope" }
    references := [{ filePath := "b.ts", line := 2, column := 5, context := "interface I" }]
    isReferenced := true }

/-- The result of analyzing S on the internal-use workspace with default
options. -/
def exInternalR0 : AnalysisResult :=
  { symbol := "S", type := RType.cls
    definition := { filePath := "s.ts", line := 1, column := 7, context := "global scope" }
    references := [], isReferenced := false }

/-- The result of analyzing S on the internal-use workspace with internal
references included. -/
def exInternalR1 : AnalysisResult :=
  { symbol := "S", type := RType.cls
    definition := { filePath := "s.ts", line := 1, column := 7, context := "global scope" }
    references := [{ filePath := "s.ts", line := 3, column := 11, context := "global scope" }]
    isReferenced := true }

/-- The dead-symbol scan output for a.ts on the single-file workspace. -/
def exMethodDead : List DeadEntry :=
  [{ type := "class", name := "C", context := "global scope" },
   { type := "method", name := "m", context := "class C" }]

/-- Well-formedness of a modelled workspace: file paths are pairwise
distinct (the project loader skips paths already present) and node
positions inside one file are pairwise distinct (distinct AST nodes have
distinct offsets). -/
def WF (c : Checker) : Prop :=
  (c.files.map (fun sf => sf.filePath)).Nodup ∧
  ∀ sf ∈ c.files, (sf.idents.map (fun o => o.pos)).Nodup

instance (c : Checker) : Decidable (WF c) := by
  unfold WF
  infer_instance

/-
Supporting lemmas.
-/

/-- Existence of a qualifying declaration occurrence, mirroring the
acceptance rule of the definition search: a non-ambient file containing an
occurrence with matching text and an accepted parent kind. -/
def hasAcceptedDecl (c : Checker) (name : String) : Prop :=
  ∃ sf ∈ c.files, strEndsWith sf.filePath ".d.ts" = false ∧
    ∃ o ∈ sf.idents, o.text = name ∧ acceptedDefParent o.parentKind = true

instance (c : Checker) (name : String) : Decidable (hasAcceptedDecl c name) := by
  unfold hasAcceptedDecl
  infer_instance

theorem findDefinition_spec {files : List SourceFile} {name df : String}
    {docc : IdentOcc} (h : findDefinition files name = some (df, docc)) :
    ∃ sf ∈ files, sf.filePath = df ∧ strEndsWith df ".d.ts" = false ∧
      docc ∈ sf.idents ∧ docc.text = name ∧ acceptedDefParent docc.parentKind = true := by
  induction files with
  | nil => simp [findDefinition] at h
  | cons sf rest ih =>
    by_cases hd : strEndsWith sf.filePath ".d.ts"
    · rw [findDefinition, if_pos hd] at h
      obtain ⟨sf', hmem, hrest⟩ := ih h
      exact ⟨sf', List.mem_cons_of_mem _ hmem, hrest⟩
    · rw [findDefinition, if_neg hd] at h
      cases hfind : (sf.idents.filter (fun o => o.text == name)).find?
          (fun o => acceptedDefParent o.parentKind) with
      | none =>
        rw [hfind] at h
        obtain ⟨sf', hmem, hrest⟩ := ih h
        exact ⟨sf', List.mem_cons_of_mem _ hmem, hrest⟩
      | some occ =>
        rw [hfind] at h
        injection h with h
        injection h with h1 h2
        subst h1
        subst h2
        have hoccmem := List.mem_of_find?_eq_some hfind
        have hp := List.find?_some hfind
        rw [List.mem_filter] at hoccmem
        refine ⟨sf, List.mem_cons_self sf rest, rfl, by simpa using hd,
          hoccmem.1, by simpa using hoccmem.2, hp⟩

theorem findDefinition_none_iff {files : List SourceFile} {name : String} :
    findDefinition files name = none ↔
      ∀ sf ∈ files, strEndsWith sf.filePath ".d.ts" = false →
        ∀ o ∈ sf.idents, ¬(o.text = name ∧ acceptedDefParent o.parentKind = true) := by
  induction files with
  | nil => simp [findDefinition]
  | cons sf rest ih =>
    by_cases hd : strEndsWith sf.filePath ".d.ts"
    · rw [findDefinition, if_pos hd]
      rw [ih]
      constructor
      · intro hall sf' hmem
        rcases List.mem_cons.mp hmem with heq | hmem'
        · intro hfalse
          rw [heq] at hfalse
          rw [hd] at hfalse
          cases hfalse
        · exact hall sf' hmem'
      · intro hall sf' hmem'
        exact hall sf' (List.mem_cons_of_mem _ hmem')
    · rw [findDefinition, if_neg hd]
      cases hfind : (sf.idents.filter (fun o => o.text == name)).find?
          (fun o => acceptedDefParent o.parentKind) with
      | some occ =>
        simp only [reduceCtorEq, false_iff]
        intro hall
        have hoccmem := List.mem_of_find?_eq_some hfind
        have hp := List.find?_some hfind
        rw [List.mem_filter] at hoccmem
        exact hall sf (List.mem_cons_self sf rest) (by simpa using hd) occ hoccmem.1
          ⟨by simpa using hoccmem.2, hp⟩
      | none =>
        rw [ih]
        have hnone := List.find?_eq_none.mp hfind
        constructor
        · intro hall sf' hmem
          rcases List.mem_cons.mp hmem with heq | hmem'
          · subst heq
            intro _ o homem ⟨htext, hacc⟩
            exact hnone o (List.mem_filter.mpr ⟨homem, by simpa using htext⟩) hacc
          · exact hall sf' hmem'
        · intro hall sf' hmem'
          exact hall sf' (List.mem_cons_of_mem _ hmem')

theorem mem_refCandidates {c : Checker} {name : String} {b : Bool}
    {df : String} {docc : IdentOcc} {x : RefSite} :
    x ∈ refCandidates c name b df docc ↔
      ∃ sf ∈ c.files, ¬(sf.filePath = df ∧ b = false) ∧
        ∃ o ∈ sf.idents, o.text = name ∧ acceptOcc df docc sf.filePath o = true ∧
          x = mkRef c.cwd sf.filePath o := by
  simp only [refCandidates, List.mem_flatMap, List.mem_filter, List.mem_map]
  constructor
  · rintro ⟨sf, ⟨hmem, hskip⟩, o, ⟨⟨homem, htext⟩, hacc⟩, hx⟩
    refine ⟨sf, hmem, ?_, o, homem, by simpa using htext, hacc, hx.symm⟩
    intro ⟨hfp, hb⟩
    subst hb
    simp [hfp] at hskip
  · rintro ⟨sf, hmem, hskip, o, homem, htext, hacc, hx⟩
    refine ⟨sf, ⟨hmem, ?_⟩, o, ⟨⟨homem, by simpa using htext⟩, hacc⟩, hx.symm⟩
    cases b with
    | true => simp
    | false =>
      simp only [Bool.not_eq_true', Bool.and_eq_false_iff]
      left
      simp only [beq_eq_false_iff_ne, ne_eq]
      intro hfp
      exact hskip ⟨hfp, rfl⟩

theorem dedupByKey_sublist :
    ∀ (l : List RefSite) (seen : List String), (dedupByKey l seen).Sublist l := by
  intro l
  induction l with
  | nil => intro seen; simp [dedupByKey]
  | cons r rs ih =>
    intro seen
    rw [dedupByKey]
    by_cases hs : seen.contains (refKey r)
    · rw [if_pos hs]
      exact (ih seen).cons r
    · rw [if_neg hs]
      exact (ih (refKey r :: seen)).cons₂ r

theorem dedupByKey_keys :
    ∀ (l : List RefSite) (seen : List String),
      ((dedupByKey l seen).map refKey).Nodup ∧
        ∀ e ∈ dedupByKey l seen, refKey e ∉ seen := by
  intro l
  induction l with
  | nil => intro seen; simp [dedupByKey]
  | cons r rs ih =>
    intro seen
    rw [dedupByKey]
    by_cases hs : seen.contains (refKey r)
    · rw [if_pos hs]
      exact ih seen
    · rw [if_neg hs]
      obtain ⟨hnd, hnot⟩ := ih (refKey r :: seen)
      constructor
      · rw [List.map_cons, List.nodup_cons]
        refine ⟨?_, hnd⟩
        intro hkmem
        obtain ⟨e, hemem, hek⟩ := List.mem_map.mp hkmem
        exact hnot e hemem (by rw [hek]; exact List.mem_cons_self _ _)
      · intro e hemem hseen
        rcases List.mem_cons.mp hemem with heq | hemem'
        · rw [heq] at hseen
          exact hs (List.elem_iff.mpr hseen)
        · exact hnot e hemem' (List.mem_cons_of_mem _ hseen)

theorem dedupByKey_covers :
    ∀ (l : List RefSite) (seen : List String) (x : RefSite), x ∈ l →
      refKey x ∉ seen → ∃ e ∈ dedupByKey l seen, refKey e = refKey x := by
  intro l
  induction l with
  | nil => intro seen x hx; simp at hx
  | cons r rs ih =>
    intro seen x hx hxseen
    rw [dedupByKey]
    by_cases hs : seen.contains (refKey r)
    · rw [if_pos hs]
      rcases List.mem_cons.mp hx with heq | hx'
      · rw [heq] at hxseen
        exact absurd (List.elem_iff.mp hs) hxseen
      · exact ih seen x hx' hxseen
    · rw [if_neg hs]
      rcases List.mem_cons.mp hx with heq | hx'
      · exact ⟨r, List.mem_cons_self _ _, by rw [heq]⟩
      · by_cases hk : refKey x = refKey r
        · exact ⟨r, List.mem_cons_self _ _, hk.symm⟩
        · obtain ⟨e, hemem, hek⟩ := ih (refKey r :: seen) x hx'
            (by
              intro hmem
              rcases List.mem_cons.mp hmem with h1 | h2
              · exact hk h1
              · exact hxseen h2)
          exact ⟨e, List.mem_cons_of_mem _ hemem, hek⟩

theorem analyzeSymbol_ok {c : Checker} {name df : String} {docc : IdentOcc}
    (b : Bool) (h : findDefinition c.files name = some (df, docc)) :
    analyzeSymbol c name b = Except.ok
      { symbol := name
        type := symbolTypeAt docc.parentKind
        definition :=
          { filePath := pathRelative c.cwd df
            line := docc.startLine
            column := docc.startColumn
            context := "global scope" }
        references := dedupByKey (refCandidates c name b df docc) []
        isReferenced := (dedupByKey (refCandidates c name b df docc) []).length > 0 } := by
  rw [analyzeSymbol, h]

theorem analyzeSymbol_isOk_iff {c : Checker} {name : String} {b : Bool} :
    (analyzeSymbol c name b).toOption = none ↔ findDefinition c.files name = none := by
  cases h : findDefinition c.files name with
  | none => simp [analyzeSymbol, h, Except.toOption]
  | some p => simp [analyzeSymbol, h, Except.toOption]

theorem analyzeSymbol_references {c : Checker} {name : String} {b : Bool}
    {df : String} {docc : IdentOcc} {r : AnalysisResult}
    (h : findDefinition c.files name = some (df, docc))
    (hok : analyzeSymbol c name b = Except.ok r) :
    r.references = dedupByKey (refCandidates c name b df docc) [] := by
  rw [analyzeSymbol_ok b h] at hok
  injection hok with hok
  rw [← hok]

theorem isSelfSkip_self {df : String} {docc : IdentOcc}
    (hacc : isDeclHeaderKind docc.parentKind = true) :
    isSelfSkip df docc df docc = true := by
  cases hk : docc.parentKind with
  | none => rw [hk] at hacc; exact absurd hacc (by decide)
  | some k => simp [isSelfSkip, hk, hk ▸ hacc]

theorem acceptOcc_eq_false_of_selfSkip {df curFile : String} {docc occ : IdentOcc}
    (h : isSelfSkip df docc curFile occ = true) :
    acceptOcc df docc curFile occ = false := by
  simp [acceptOcc, h]

theorem acceptedDefParent_declHeader {k : Option SKind}
    (h : acceptedDefParent k = true) : isDeclHeaderKind k = true := by
  simp [isDeclHeaderKind, h]

/-
Claim theorems.
-/

/-- C10: for every successful analyzeSymbol call, the context label of the
returned definition is the constant string global scope, whatever the
actual enclosing scope of the definition is. -/
theorem c10_definition_context_constant (c : Checker) (name : String) (b : Bool)
    (r : AnalysisResult) (h : analyzeSymbol c name b = Except.ok r) :
    r.definition.context = "global scope" := by
  cases hfd : findDefinition c.files name with
  | none => rw [analyzeSymbol, hfd] at h; cases h
  | some p =>
    rw [analyzeSymbol_ok b hfd] at h
    injection h with h
    rw [← h]

theorem c10_witness : exMethodResult.definition.context = "global scope" :=
  c10_definition_context_constant exMethod "m" false exMethodResult rfl

/-- C1 counterexample: in a workspace whose first accepted occurrence of m
has a method-declaration parent, analyzeSymbol reports the kind function,
not method, refuting the claim that a method-declaration parent is
classified as method. -/
theorem c1_counterexample :
    (findDefinition exMethod.files "m").map (fun p => p.2.parentKind)
        = some (some SKind.methodDecl) ∧
    (analyzeSymbol exMethod "m" false).toOption.map (fun r => r.type.toStr)
        = some "function" ∧
    "function" ≠ "method" := by
  exact ⟨by decide, by decide, by decide⟩

/-- C1 amended: the reported kind equals the parent kind for class,
interface and function declaration parents, while method-declaration and
property-declaration parents are reported as function, the default of the
four-valued result type. -/
theorem c1_amended_classification (c : Checker) (name df : String)
    (docc : IdentOcc) (b : Bool) (r : AnalysisResult)
    (hdef : findDefinition c.files name = some (df, docc))
    (hok : analyzeSymbol c name b = Except.ok r) :
    (docc.parentKind = some SKind.classDecl → r.type = RType.cls) ∧
    (docc.parentKind = some SKind.interfaceDecl → r.type = RType.intf) ∧
    (docc.parentKind = some SKind.functionDecl → r.type = RType.func) ∧
    (docc.parentKind = some SKind.methodDecl → r.type = RType.func) ∧
    (docc.parentKind = some SKind.propertyDecl → r.type = RType.func) := by
  rw [analyzeSymbol_ok b hdef] at hok
  injection hok with hok
  refine ⟨?_, ?_, ?_, ?_, ?_⟩ <;> intro hk <;> rw [← hok] <;> simp [symbolTypeAt, hk]

theorem c1_amended_witness :
    identM.parentKind = some SKind.methodDecl ∧ exMethodResult.type = RType.func :=
  ⟨by decide,
    (c1_amended_classification exMethod "m" "/proj/a.ts" identM false exMethodResult
      rfl rfl).2.2.2.1 rfl⟩

/-- C2: the dead-symbol scan of a file containing only an unreferenced
top-level variable declaration does not return a variable entry: the
inner analyzeSymbol call never accepts a variable-declaration parent as a
definition, throws, and checkFile propagates the error. -/
theorem c2_variable_scan_throws :
    fileV.variableDecls = ["unusedVar"] ∧
    (analyzeSymbol exVar "unusedVar" false).toOption = none ∧
    (checkFile exVar "/proj/v.ts").toOption = none := by
  exact ⟨by decide, by decide, by decide⟩

/-- C7: a file whose path ends in .d.ts is never chosen as the definition
source, and every returned reference entry is produced from an occurrence
located in a file whose path does not end in .d.ts. -/
theorem c7_ambient_exclusion (c : Checker) (name : String) (b : Bool) :
    (∀ df docc, findDefinition c.files name = some (df, docc) →
      strEndsWith df ".d.ts" = false) ∧
    (∀ r, analyzeSymbol c name b = Except.ok r → ∀ e ∈ r.references,
      ∃ sf ∈ c.files, strEndsWith sf.filePath ".d.ts" = false ∧
        ∃ o ∈ sf.idents, e = mkRef c.cwd sf.filePath o) := by
  constructor
  · intro df docc h
    obtain ⟨sf, _, _, hends, _⟩ := findDefinition_spec h
    exact hends
  · intro r hok e he
    cases hfd : findDefinition c.files name with
    | none => rw [analyzeSymbol, hfd] at hok; cases hok
    | some p =>
      obtain ⟨df, docc⟩ := p
      rw [analyzeSymbol_references hfd hok] at he
      have hmem := (dedupByKey_sublist _ _).subset he
      rw [mem_refCandidates] at hmem
      obtain ⟨sf, hsf, _, o, ho, _, hacc, hx⟩ := hmem
      refine ⟨sf, hsf, ?_, o, ho, hx⟩
      simp only [acceptOcc, Bool.and_eq_true] at hacc
      have := hacc.1.1.2
      simpa using this

theorem c7_witness : strEndsWith "/proj/a.ts" ".d.ts" = false :=
  (c7_ambient_exclusion exSig "m" false).1 "/proj/a.ts" identM (by decide)

/-- C8: the returned reference list has pairwise distinct composite keys,
is a sublist of the pre-dedup candidate enumeration (so first-insertion
order is preserved), and covers the key of every reference-producing
occurrence. -/
theorem c8_dedup_invariant (c : Checker) (name df : String) (docc : IdentOcc)
    (b : Bool) (r : AnalysisResult)
    (hdef : findDefinition c.files name = some (df, docc))
    (hok : analyzeSymbol c name b = Except.ok r) :
    (r.references.map refKey).Nodup ∧
    r.references.Sublist (refCandidates c name b df docc) ∧
    ∀ x ∈ refCandidates c name b df docc,
      ∃ e ∈ r.references, refKey e = refKey x := by
  rw [analyzeSymbol_references hdef hok]
  exact ⟨(dedupByKey_keys _ _).1, dedupByKey_sublist _ _,
    fun x hx => dedupByKey_covers _ _ x hx (by simp)⟩

theorem c8_witness : (exSigResult.references.map refKey).Nodup :=
  (c8_dedup_invariant exSig "m" "/proj/a.ts" identM false exSigResult
    rfl rfl).1

/-- C4 counterexample: with the definition of m located at the method
declaration in a.ts, the same-named method signature occurrence inside
interface I in b.ts, whose binding resolves to that definition, is not
rejected by the declaration-header rule (which only applies to the chosen
definition node itself) and appears in the returned reference set. -/
theorem c4_counterexample :
    identMSig.parentKind = some SKind.methodSignature ∧
    identMSig ∈ fileB.idents ∧
    findDefinition exSig.files "m" = some ("/proj/a.ts", identM) ∧
    fileB.filePath ≠ "/proj/a.ts" ∧
    (analyzeSymbol exSig "m" false).toOption.map (fun r => r.references)
        = some [{ filePath := "b.ts", line := 2, column := 5, context := "interface I" }] := by
  exact ⟨rfl, by decide, rfl, by decide, rfl⟩

/-- C4 amended: the declaration-header rejection applies exactly to the
chosen definition occurrence itself: the definition node with a header
parent among the five declaration kinds or a method signature is always
rejected, as is any occurrence sitting in a property access directly
inside a method declaration; a non-definition occurrence with a header
parent is not rejected on that account. -/
theorem c4_amended_self_rejection (df curFile : String) (docc occ : IdentOcc) :
    (curFile = df → occ.pos = docc.pos → isDeclHeaderKind occ.parentKind = true →
      acceptOcc df docc curFile occ = false) ∧
    (occ.parentKind = some SKind.propAccessExpr →
      occ.grandKind = some SKind.methodDecl →
      acceptOcc df docc curFile occ = false) := by
  constructor
  · intro h1 h2 h3
    apply acceptOcc_eq_false_of_selfSkip
    cases hk : occ.parentKind with
    | none => rw [hk] at h3; exact absurd h3 (by decide)
    | some k => simp [isSelfSkip, hk, h1, h2, hk ▸ h3]
  · intro h1 h2
    apply acceptOcc_eq_false_of_selfSkip
    simp [isSelfSkip, h1, h2]

theorem c4_amended_witness :
    acceptOcc "/proj/a.ts" identM "/proj/a.ts" identM = false :=
  (c4_amended_self_rejection "/proj/a.ts" "/proj/a.ts" identM identM).1 rfl rfl
    (by decide)

/-- C6: an occurrence inside an import specifier with a known module
specifier is accepted only when the specifier starts with a relative-path
marker and one of the candidate paths (the resolved path with the ts and
tsx extensions or an index file under it) equals the definition file, and
an occurrence whose import specifier is non-relative is always rejected. -/
theorem c6_import_resolution (df curFile : String) (docc occ : IdentOcc)
    (m : String) (hp : occ.parentKind = some SKind.importSpec)
    (hm : occ.importModule = some m) :
    (acceptOcc df docc curFile occ = true →
      strStartsWith m "." = true ∧
        (importCandidatePaths curFile m).contains df = true) ∧
    (strStartsWith m "." = false → acceptOcc df docc curFile occ = false) := by
  constructor
  · intro hacc
    simp only [acceptOcc, Bool.and_eq_true] at hacc
    have himp := hacc.2
    rw [importOk, hp] at himp
    simp only [beq_self_eq_true, if_true, hm] at himp
    cases hs : strStartsWith m "."
    · rw [hs] at himp
      simp at himp
    · rw [hs] at himp
      simp only [if_true] at himp
      exact ⟨rfl, himp⟩
  · intro hs
    have himp : importOk df curFile occ = false := by
      rw [importOk, hp]
      simp [hm, hs]
    simp [acceptOcc, himp]

theorem c6_witness :
    identExternalImport.importModule = some "lodash" ∧
    acceptOcc "/proj/a.ts" identC "/proj/b.ts" identExternalImport = false :=
  ⟨rfl, (c6_import_resolution "/proj/a.ts" "/proj/b.ts" identC identExternalImport
    "lodash" rfl rfl).2 (by decide)⟩

/-- C3: with a well-formed workspace, analyzeSymbol fails exactly when no
file outside the ambient exclusion holds an occurrence with matching text
and an accepted declaration parent, and on success every returned
reference entry originates from an occurrence distinct from the chosen
definition node, so the definition never counts among its own references
and zero references is an ordinary success value. -/
theorem c3_not_found_exact (c : Checker) (name : String) (b : Bool)
    (hwf : WF c) :
    ((analyzeSymbol c name b).toOption = none ↔ ¬ hasAcceptedDecl c name) ∧
    (∀ df docc r, findDefinition c.files name = some (df, docc) →
      analyzeSymbol c name b = Except.ok r →
      ∀ e ∈ r.references, ∃ sf ∈ c.files, ∃ o ∈ sf.idents,
        ¬(sf.filePath = df ∧ o.pos = docc.pos) ∧ e = mkRef c.cwd sf.filePath o) := by
  constructor
  · rw [analyzeSymbol_isOk_iff, findDefinition_none_iff]
    constructor
    · rintro hall ⟨sf, hsf, hends, o, ho, htext, hacc⟩
      exact hall sf hsf hends o ho ⟨htext, hacc⟩
    · rintro hno sf hsf hends o ho ⟨htext, hacc⟩
      exact hno ⟨sf, hsf, hends, o, ho, htext, hacc⟩
  · intro df docc r hdef hok e he
    rw [analyzeSymbol_references hdef hok] at he
    have hmem := (dedupByKey_sublist _ _).subset he
    rw [mem_refCandidates] at hmem
    obtain ⟨sf, hsf, _, o, ho, _, hacc, hx⟩ := hmem
    refine ⟨sf, hsf, o, ho, ?_, hx⟩
    rintro ⟨hfp, hpos⟩
    obtain ⟨sfd, hsfd, hfpd, _, hdmem, _, hdacc⟩ := findDefinition_spec hdef
    have hsfeq : sf = sfd :=
      List.inj_on_of_nodup_map hwf.1 hsf hsfd (by rw [hfp, hfpd])
    have hoeq : o = docc := by
      apply List.inj_on_of_nodup_map (hwf.2 sf hsf) ho (hsfeq ▸ hdmem) hpos
    have hskip : isSelfSkip df docc sf.filePath o = true := by
      rw [hoeq, hfp]
      exact isSelfSkip_self (acceptedDefParent_declHeader hdacc)
    rw [acceptOcc_eq_false_of_selfSkip hskip] at hacc
    cases hacc

theorem c3_witness :
    WF exMethod ∧
    (((analyzeSymbol exMethod "m" false).toOption = none) ↔
      ¬ hasAcceptedDecl exMethod "m") :=
  ⟨by decide, (c3_not_found_exact exMethod "m" false (by decide)).1⟩

/-- C5: when a symbol with a located definition occurs nowhere outside its
defining file, the default analysis returns no references, and the
analysis with internal references included keeps the identical definition
site while its reference list consists of same-file occurrences,
containing an entry for every same-file occurrence the matcher accepts. -/
theorem c5_internal_reference_gating (c : Checker) (name df : String)
    (docc : IdentOcc) (r0 r1 : AnalysisResult)
    (hdef : findDefinition c.files name = some (df, docc))
    (honly : ∀ sf ∈ c.files, sf.filePath ≠ df → ∀ o ∈ sf.idents, o.text ≠ name)
    (h0 : analyzeSymbol c name false = Except.ok r0)
    (h1 : analyzeSymbol c name true = Except.ok r1) :
    r0.isReferenced = false ∧ r0.references = [] ∧
    r1.definition = r0.definition ∧
    (∀ sf ∈ c.files, sf.filePath = df → ∀ o ∈ sf.idents, o.text = name →
      acceptOcc df docc sf.filePath o = true →
      ∃ e ∈ r1.references, refKey e = refKey (mkRef c.cwd sf.filePath o)) ∧
    (∀ e ∈ r1.references, ∃ sf ∈ c.files, sf.filePath = df ∧
      ∃ o ∈ sf.idents, e = mkRef c.cwd sf.filePath o) := by
  have hcand0 : refCandidates c name false df docc = [] := by
    rw [List.eq_nil_iff_forall_not_mem]
    intro x hx
    rw [mem_refCandidates] at hx
    obtain ⟨sf, hsf, hskip, o, ho, htext, _, _⟩ := hx
    by_cases hfp : sf.filePath = df
    · exact hskip ⟨hfp, rfl⟩
    · exact honly sf hsf hfp o ho htext
  rw [analyzeSymbol_ok false hdef] at h0
  injection h0 with h0
  rw [analyzeSymbol_ok true hdef] at h1
  injection h1 with h1
  refine ⟨?_, ?_, ?_, ?_, ?_⟩
  · rw [← h0]
    simp [hcand0, dedupByKey]
  · rw [← h0]
    simp [hcand0, dedupByKey]
  · rw [← h0, ← h1]
  · intro sf hsf hfp o ho htext hacc
    rw [← h1]
    apply dedupByKey_covers
    · rw [mem_refCandidates]
      exact ⟨sf, hsf, by simp, o, ho, htext, hacc, rfl⟩
    · simp
  · intro e he
    rw [← h1] at he
    have hmem := (dedupByKey_sublist _ _).subset he
    rw [mem_refCandidates] at hmem
    obtain ⟨sf, hsf, _, o, ho, htext, _, hx⟩ := hmem
    by_cases hfp : sf.filePath = df
    · exact ⟨sf, hsf, hfp, o, ho, hx⟩
    · exact absurd htext (honly sf hsf hfp o ho)

theorem c5_witness :
    exInternalR0.isReferenced = false ∧
    exInternalR1.definition = exInternalR0.definition := by
  have h := c5_internal_reference_gating exInternal "S" "/proj/s.ts" identS
    exInternalR0 exInternalR1 rfl (by decide) rfl rfl
  exact ⟨h.1, h.2.2.1⟩

theorem scanMembers_inv (c : Checker) (t ctx : String) :
    ∀ (ns checked : List String) (out : List DeadEntry)
      (res : List String × List DeadEntry),
      scanMembers c t ctx ns checked out = Except.ok res →
      (∀ e ∈ out, e.name ∈ checked) → (out.map (fun e => e.name)).Nodup →
      (∀ x ∈ checked, x ∈ res.1) ∧ (∀ e ∈ res.2, e.name ∈ res.1) ∧
        (res.2.map (fun e => e.name)).Nodup := by
  intro ns
  induction ns with
  | nil =>
    intro checked out res h hin hnd
    rw [scanMembers] at h
    injection h with h
    subst h
    exact ⟨fun x hx => hx, hin, hnd⟩
  | cons name rest ih =>
    intro checked out res h hin hnd
    rw [scanMembers] at h
    by_cases hc : name ≠ "" ∧ ¬ checked.contains name = true
    · rw [if_pos hc] at h
      cases hae : analyzeSymbol c name false with
      | error e => rw [hae] at h; cases h
      | ok result =>
        rw [hae] at h
        dsimp only at h
        by_cases hr : result.isReferenced = true
        · rw [if_pos hr] at h
          have hres := ih (name :: checked) out res h
            (fun e he => List.mem_cons_of_mem _ (hin e he)) hnd
          exact ⟨fun x hx => hres.1 x (List.mem_cons_of_mem _ hx), hres.2⟩
        · rw [if_neg hr] at h
          have hinv : ∀ e ∈ out ++ [DeadEntry.mk t name ctx],
              e.name ∈ name :: checked := by
            intro e he
            rcases List.mem_append.mp he with h1 | h2
            · exact List.mem_cons_of_mem _ (hin e h1)
            · rw [List.mem_singleton] at h2
              subst h2
              exact List.mem_cons_self _ _
          have hnd2 : ((out ++ [DeadEntry.mk t name ctx]).map
              (fun e => e.name)).Nodup := by
            rw [List.map_append]
            refine List.Nodup.append hnd (List.nodup_singleton _) ?_
            intro a ha hb
            simp only [List.map_cons, List.map_nil, List.mem_singleton] at hb
            subst hb
            obtain ⟨e, hemem, hename⟩ := List.mem_map.mp ha
            have hnamein := hin e hemem
            rw [hename] at hnamein
            exact hc.2 (List.elem_iff.mpr hnamein)
          have hres := ih (name :: checked) (out ++ [DeadEntry.mk t name ctx])
            res h hinv hnd2
          exact ⟨fun x hx => hres.1 x (List.mem_cons_of_mem _ hx), hres.2⟩
    · rw [if_neg hc] at h
      exact ih checked out res h hin hnd

theorem scanTops_inv (c : Checker) :
    ∀ (ds : List (Option String × TopKind)) (checked : List String)
      (out : List DeadEntry) (res : List String × List DeadEntry),
      scanTops c ds checked out = Except.ok res →
      (∀ e ∈ out, e.name ∈ checked) → (out.map (fun e => e.name)).Nodup →
      (∀ e ∈ res.2, e.name ∈ res.1) ∧ (res.2.map (fun e => e.name)).Nodup := by
  intro ds
  induction ds with
  | nil =>
    intro checked out res h hin hnd
    rw [scanTops] at h
    injection h with h
    subst h
    exact ⟨hin, hnd⟩
  | cons d ds ih =>
    intro checked out res h hin hnd
    rw [scanTops] at h
    cases hd1 : d.1 with
    | none =>
      rw [hd1] at h
      dsimp only at h
      exact ih checked out res h hin hnd
    | some name =>
      rw [hd1] at h
      dsimp only at h
      by_cases hc : name ≠ "" ∧ ¬ checked.contains name = true
      · rw [if_pos hc] at h
        cases hae : analyzeSymbol c name false with
        | error e => rw [hae] at h; cases h
        | ok result =>
          rw [hae] at h
          dsimp only at h
          by_cases hr : result.isReferenced = true
          · rw [if_pos hr] at h
            exact ih (name :: checked) out res h
              (fun e he => List.mem_cons_of_mem _ (hin e he)) hnd
          · rw [if_neg hr] at h
            refine ih (name :: checked) _ res h ?_ ?_
            · intro e he
              rcases List.mem_append.mp he with h1 | h2
              · exact List.mem_cons_of_mem _ (hin e h1)
              · rw [List.mem_singleton] at h2
                subst h2
                exact List.mem_cons_self _ _
            · rw [List.map_append]
              refine List.Nodup.append hnd (List.nodup_singleton _) ?_
              intro a ha hb
              simp only [List.map_cons, List.map_nil, List.mem_singleton] at hb
              subst hb
              obtain ⟨e, hemem, hename⟩ := List.mem_map.mp ha
              have hnamein := hin e hemem
              rw [hename] at hnamein
              exact hc.2 (List.elem_iff.mpr hnamein)
      · rw [if_neg hc] at h
        exact ih checked out res h hin hnd

theorem scanClasses_inv (c : Checker) :
    ∀ (cds : List ClassInfo) (checked : List String) (out : List DeadEntry)
      (res : List String × List DeadEntry),
      scanClasses c cds checked out = Except.ok res →
      (∀ e ∈ out, e.name ∈ checked) → (out.map (fun e => e.name)).Nodup →
      (∀ e ∈ res.2, e.name ∈ res.1) ∧ (res.2.map (fun e => e.name)).Nodup := by
  intro cds
  induction cds with
  | nil =>
    intro checked out res h hin hnd
    rw [scanClasses] at h
    injection h with h
    subst h
    exact ⟨hin, hnd⟩
  | cons cd rest ih =>
    intro checked out res h hin hnd
    rw [scanClasses] at h
    cases h1 : scanMembers c "method" ("class " ++ classNameStr cd.name)
        cd.methods checked out with
    | error e => rw [h1] at h; cases h
    | ok st1 =>
      rw [h1] at h
      dsimp only at h
      cases h2 : scanMembers c "property" ("class " ++ classNameStr cd.name)
          cd.properties st1.1 st1.2 with
      | error e => rw [h2] at h; cases h
      | ok st2 =>
        rw [h2] at h
        dsimp only at h
        have i1 := scanMembers_inv c _ _ _ _ _ _ h1 hin hnd
        have i2 := scanMembers_inv c _ _ _ _ _ _ h2 i1.2.1 i1.2.2
        exact ih st2.1 st2.2 res h i2.2.1 i2.2.2

/-- C9: every successful dead-symbol scan returns a list whose entry names
are pairwise distinct: a name occurring in several declaration categories
or classes is analyzed only at its first occurrence in scan order, so no
name yields two entries. -/
theorem c9_dead_scan_names_unique (c : Checker) (fp : String)
    (l : List DeadEntry) (h : checkFile c fp = Except.ok l) :
    (l.map (fun e => e.name)).Nodup := by
  rw [checkFile] at h
  cases hf : c.files.find? (fun sf => sf.filePath == fp) with
  | none => rw [hf] at h; cases h
  | some sf =>
    rw [hf] at h
    dsimp only at h
    cases h1 : scanTops c (topDecls sf) [] [] with
    | error e => rw [h1] at h; cases h
    | ok st1 =>
      rw [h1] at h
      dsimp only at h
      cases h2 : scanClasses c sf.classes st1.1 st1.2 with
      | error e => rw [h2] at h; cases h
      | ok st2 =>
        rw [h2] at h
        dsimp only at h
        injection h with h
        subst h
        have i1 := scanTops_inv c (topDecls sf) [] [] st1 h1 (by simp) (by simp)
        exact (scanClasses_inv c sf.classes st1.1 st1.2 st2 h2 i1.1 i1.2).2

theorem c9_witness : (exMethodDead.map (fun e => e.name)).Nodup :=
  c9_dead_scan_names_unique exMethod "/proj/a.ts" exMethodDead rfl

end SymbolRef
